import Mathlib

/-!
Verification development for the BTC_Strat backtesting repository.

The Python sources are shallowly embedded over the rationals.  Real-analytic
primitives (natural logarithm, square root, exponential, the standard normal
CDF and its inverse PPF) are not rational-valued; the embedding abstracts them
as an explicit record of functions `MathPrims` threaded through every pricing
definition, and theorems state the analytic facts they need about those
functions as hypotheses at the concrete points where they are used.  Machine
floats are modelled as exact rationals.  The pandas option-chain lookup is
modelled by its result, an `Option` of the empirical price found.
-/

namespace BTCStrat

/-- Option class, the `option_type` strings `'call' | 'put'` of the source. -/
inductive OptType
  | call
  | put
deriving DecidableEq

/-- Position side, the `side` strings `'long' | 'short'` of the source. -/
inductive Side
  | long
  | short
deriving DecidableEq

/-- Abstract real-analytic primitives (`np.log`, `np.sqrt`, `np.exp`,
`scipy.stats.norm.cdf`, `scipy.stats.norm.ppf`) used by the pricing formulas.
They are passed explicitly so the embedding stays computable; each theorem
states the properties of these functions that it needs as hypotheses.  The
`nan` field is the abstract, unconstrained stand-in for the float `nan`
produced by a `0.0/0.0` division (no theorem constrains its value). -/
structure MathPrims where
  log : ℚ → ℚ
  sqrt : ℚ → ℚ
  exp : ℚ → ℚ
  cdf : ℚ → ℚ
  ppf : ℚ → ℚ
  nan : ℚ

/-- Intrinsic value `max(0, S-K)` for calls and `max(0, K-S)` for puts,
the common early-exit payoff of both BSM implementations. -/
def intrinsic (S K : ℚ) (ot : OptType) : ℚ :=
  match ot with
  | OptType.call => max 0 (S - K)
  | OptType.put => max 0 (K - S)

/-- Embedding of `bsm_price` from `run_backtest.py` (also the `bsm_price`
imported by `src/src/strategy.py`): time is given in days, and both `T_days
<= 0` and `sigma <= 0` return the intrinsic value before the formula runs. -/
def bsm_price (P : MathPrims) (S K T_days r sigma : ℚ) (ot : OptType) : ℚ :=
  if T_days ≤ 0 then intrinsic S K ot
  else
    let T := T_days / 365
    if sigma ≤ 0 then intrinsic S K ot
    else
      let d1 := (P.log (S / K) + (r + sigma ^ 2 / 2) * T) / (sigma * P.sqrt T)
      let d2 := d1 - sigma * P.sqrt T
      match ot with
      | OptType.call => S * P.cdf d1 - K * P.exp (-(r * T)) * P.cdf d2
      | OptType.put => K * P.exp (-(r * T)) * P.cdf (-d2) - S * P.cdf (-d1)

/-- Embedding of `OptionPricing._bsm_price_formula` from `src/src/pricing.py`:
time is given in years and only `T <= 0` is guarded — there is no
`sigma <= 0` guard.  When the denominator `sigma*sqrt(T)` is zero the formula
is still evaluated, under numpy float semantics: `num/0.0` is `+inf` for
`num > 0`, `-inf` for `num < 0` and `nan` for `num = 0` (a RuntimeWarning,
not an error); then `d2 = d1 - 0 = d1`, `norm.cdf(+inf) = 1`,
`norm.cdf(-inf) = 0`, and `norm.cdf(nan) = nan`, which collapses the formula
to the explicit values of the zero-denominator branch below (the `nan` case
is kept symbolic through `P.nan`).  With a nonzero denominator the division
is ordinary exact division. -/
def bsm_price_formula (P : MathPrims) (S K T r sigma : ℚ) (ot : OptType) : ℚ :=
  if T ≤ 0 then intrinsic S K ot
  else
    let num := P.log (S / K) + (r + sigma ^ 2 / 2) * T
    let den := sigma * P.sqrt T
    if den = 0 then
      if num > 0 then
        match ot with
        | OptType.call => S - K * P.exp (-(r * T))
        | OptType.put => 0
      else if num < 0 then
        match ot with
        | OptType.call => 0
        | OptType.put => K * P.exp (-(r * T)) - S
      else
        match ot with
        | OptType.call => S * P.cdf P.nan - K * P.exp (-(r * T)) * P.cdf P.nan
        | OptType.put => K * P.exp (-(r * T)) * P.cdf P.nan - S * P.cdf P.nan
    else
      let d1 := num / den
      let d2 := d1 - sigma * P.sqrt T
      match ot with
      | OptType.call => S * P.cdf d1 - K * P.exp (-(r * T)) * P.cdf d2
      | OptType.put => K * P.exp (-(r * T)) * P.cdf (-d2) - S * P.cdf (-d1)

/-- Embedding of `OptionPricing.get_price` from `src/src/pricing.py`.  The
pandas chain lookup `_lookup_market_price` is abstracted by its result
`market_price : Option`; the sanity-check / circuit-breaker comparison against
the theoretical price is translated literally, including the `+ 0.0001`
division-by-zero epsilon in the relative-deviation denominator. -/
def get_price (P : MathPrims) (S K T r sigma : ℚ) (ot : OptType)
    (market_price : Option ℚ) : ℚ :=
  let bsm := bsm_price_formula P S K T r sigma ot
  match market_price with
  | none => bsm
  | some m =>
      let rel_diff := |m - bsm| / (bsm + 1 / 10000)
      let abs_diff := |m - bsm|
      if rel_diff > 1 / 2 ∧ abs_diff > 1 / 2 then bsm else m

/-- Target exercise probability of `OptionPricing._bsm_find_strike`:
`1 + delta` for puts (put delta is `N(d1) - 1`), `delta` for calls. -/
def chooseTargetProb (target_delta : ℚ) (ot : OptType) : ℚ :=
  match ot with
  | OptType.put => 1 + target_delta
  | OptType.call => target_delta

/-- Embedding of `np.clip(x, lo, hi)`. -/
def clipQ (x lo hi : ℚ) : ℚ := min (max x lo) hi

/-- The `log_k` expression of `OptionPricing._bsm_find_strike`:
`log(S) - ppf(clipped target probability) * sigma*sqrt(T) + (r + sigma^2/2)*T`. -/
def strike_log (P : MathPrims) (S T r sigma target_delta : ℚ) (ot : OptType) : ℚ :=
  P.log S
    - P.ppf (clipQ (chooseTargetProb target_delta ot) (1 / 1000) (999 / 1000))
      * (sigma * P.sqrt T)
    + (r + sigma ^ 2 / 2) * T

/-- Embedding of `OptionPricing._bsm_find_strike` from `src/src/pricing.py`:
the analytic delta-to-strike inversion, clipping the target probability to
`[0.001, 0.999]` before applying the inverse normal CDF; the returned strike
is `exp(log_k)`. -/
def bsm_find_strike (P : MathPrims) (S T r sigma target_delta : ℚ)
    (ot : OptType) : ℚ :=
  P.exp (strike_log P S T r sigma target_delta ot)

/-- Modelled from the spec: the Black-Scholes delta `N(d1)` for calls and
`N(d1) - 1` for puts, "recomputing delta at that strike via the same analytic
formula" (property P2).  The repository has no standalone delta function; the
`d1` term is the one of `bsm_price` / `_bsm_price_formula`. -/
def bsm_delta (P : MathPrims) (S K T r sigma : ℚ) (ot : OptType) : ℚ :=
  let d1 := (P.log (S / K) + (r + sigma ^ 2 / 2) * T) / (sigma * P.sqrt T)
  match ot with
  | OptType.call => P.cdf d1
  | OptType.put => P.cdf d1 - 1

/-- Embedding of `get_dynamic_skew` from `run_backtest.py`: base skew 2%, plus
a panic premium proportional to how far the vol index exceeds 60%. -/
def get_dynamic_skew (dvol : ℚ) : ℚ :=
  2 / 100 + max 0 ((dvol - 60 / 100) * (20 / 100))

/-- One option position, the dict `{'type', 'side', 'strike', 'days_left',
'size'}` appended by `sell_option` / `buy_option`. -/
structure Pos where
  otype : OptType
  side : Side
  strike : ℚ
  days_left : ℤ
  size : ℚ
deriving DecidableEq

/-- One row of the market-data table consumed per step: spot price, risk-free
rate, implied-vol index and the vol gap (`sigma - rv_30`); the date column is
irrelevant to the embedded logic and omitted. -/
structure Row where
  price : ℚ
  r : ℚ
  sigma : ℚ
  gap : ℚ
deriving DecidableEq

/-- The mutable account fields of `BaseStrategy` (`src/src/strategy.py`):
cash, underlying holdings and the open-position list.  The equity `history`
log is append-only and never read back by the strategies, so it is omitted. -/
structure Account where
  cash : ℚ
  btc : ℚ
  positions : List Pos
deriving DecidableEq

/-- Embedding of `BaseStrategy.sell_option`: credit `premium*size*0.98` of
cash and append a short position. -/
def sell_option (st : Account) (strike : ℚ) (days : ℤ) (size premium : ℚ)
    (ot : OptType) : Account :=
  { st with cash := st.cash + premium * size * (98 / 100),
            positions := st.positions ++ [⟨ot, Side.short, strike, days, size⟩] }

/-- Embedding of `BaseStrategy.buy_option`: debit `premium*size*1.02` of cash
and append a long position. -/
def buy_option (st : Account) (strike : ℚ) (days : ℤ) (size premium : ℚ)
    (ot : OptType) : Account :=
  { st with cash := st.cash - premium * size * (102 / 100),
            positions := st.positions ++ [⟨ot, Side.long, strike, days, size⟩] }

/-- Embedding of `BaseStrategy.buy_spot`: when more than $10 of cash is held,
convert the fraction `pct` of it into underlying at `price`. -/
def buy_spot (st : Account) (price pct : ℚ) : Account :=
  if st.cash > 10 then
    { st with btc := st.btc + st.cash * pct / price,
              cash := st.cash - st.cash * pct }
  else st

/-- The 5%-of-equity cash-buffer rebalancing inlined at the top of
`CollarStrategy.next_signal` and both Chameleon variants: if cash is below 5%
of equity and the underlying covers the shortfall, trim underlying into cash. -/
def rebalance (st : Account) (price : ℚ) : Account :=
  let total_equity := st.cash + st.btc * price
  let target_cash := total_equity * (5 / 100)
  if st.cash < target_cash then
    let shortfall := target_cash - st.cash
    if st.btc * price > shortfall then
      { st with btc := st.btc - shortfall / price, cash := st.cash + shortfall }
    else st
  else st

/-- Embedding of the liquidation step `if self.btc > 0: cash += btc*price;
btc = 0` that opens the put-selling branch of both Chameleon variants. -/
def liquidate (st : Account) (price : ℚ) : Account :=
  if st.btc > 0 then { st with cash := st.cash + st.btc * price, btc := 0 } else st

/-- The cash-secured-put body shared by the Chameleon branches: 90%-moneyness
strike, skewed vol, full-cash sizing `size = cash/strike`, sold only when
`cash > 0` and `size > 0.001`.  (The source inlines this block; the
`run_backtest.py` panic branch computes the premium before the `cash > 0`
test and the packaged variant after it, with identical results since the
premium computation is pure.) -/
def csp_leg (P : MathPrims) (days : ℤ) (row : Row) (st : Account) : Account :=
  let price := row.price
  let strike := price * (9 / 10)
  let skew := get_dynamic_skew row.sigma
  let vol := row.sigma + skew
  let prem := bsm_price P price strike (days : ℚ) row.r vol OptType.put
  if st.cash > 0 then
    let size := st.cash / strike
    if size > 1 / 1000 then sell_option st strike days size prem OptType.put else st
  else st

/-- The protective-collar body shared by both Chameleon variants: buy a 95%
put (skewed vol) and sell a 110% call against all held underlying, only when
the net premium cost is affordable.  (Inlined identically in both sources.) -/
def collar_leg (P : MathPrims) (days : ℤ) (row : Row) (st : Account) : Account :=
  let price := row.price
  let k_put := price * (95 / 100)
  let k_call := price * (11 / 10)
  let skew_put := get_dynamic_skew row.sigma
  let p_put := bsm_price P price k_put (days : ℚ) row.r (row.sigma + skew_put) OptType.put
  let p_call := bsm_price P price k_call (days : ℚ) row.r row.sigma OptType.call
  let cost := (p_put * (102 / 100) - p_call * (98 / 100)) * st.btc
  if st.cash > cost then
    sell_option (buy_option st k_put days st.btc p_put OptType.put)
      k_call days st.btc p_call OptType.call
  else st

/-- Embedding of `ChameleonStrategy.next_signal` from `run_backtest.py`
(three-branch, gap-based): panic (`gap > 0.15`) converts everything to cash
and sells a cash-secured put; cheap vol (`gap < 0`) runs a protective collar;
otherwise a plain covered call is sold against held underlying. -/
def chameleon_next_signal (P : MathPrims) (days : ℤ) (row : Row)
    (st : Account) : Account :=
  if st.positions.length > 0 then st
  else
    let price := row.price
    let st1 := rebalance st price
    let gap := row.gap
    if gap > 15 / 100 then csp_leg P days row (liquidate st1 price)
    else if gap < 0 then
      let st2 := if st1.btc = 0 ∧ st1.cash > 0 then buy_spot st1 price (95 / 100) else st1
      if st2.btc > 0 then collar_leg P days row st2 else st2
    else
      let st2 := if st1.btc = 0 ∧ st1.cash > 0 then buy_spot st1 price (95 / 100) else st1
      if st2.btc > 0 then
        let strike := price * (11 / 10)
        let prem := bsm_price P price strike (days : ℚ) row.r row.sigma OptType.call
        sell_option st2 strike days st2.btc prem OptType.call
      else st2

/-- Embedding of the packaged `ChameleonStrategy.next_signal` from
`src/src/strategy.py` (the active, uncommented rewrite): only two branches —
`gap < 0` runs the protective collar, and every `gap >= 0` row (panic and
normal alike) liquidates the underlying and sells a cash-secured put; no
covered-call mode exists. -/
def chameleon_next_signal_pkg (P : MathPrims) (days : ℤ) (row : Row)
    (st : Account) : Account :=
  if st.positions.length > 0 then st
  else
    let price := row.price
    let st1 := rebalance st price
    let gap := row.gap
    if gap < 0 then
      let st2 := if st1.btc = 0 ∧ st1.cash > 0 then buy_spot st1 price (95 / 100) else st1
      if st2.btc > 0 then collar_leg P days row st2 else st2
    else csp_leg P days row (liquidate st1 price)

/-- The two stages of the Wheel state machine. -/
inductive Stage
  | CSP
  | CC
deriving DecidableEq

/-- Constructor parameters of the physical-settlement `WheelStrategy`
(`src/src/strategy.py`, the active version with `slip`). -/
structure WheelParams where
  days : ℤ
  put_otm : ℚ
  call_otm : ℚ
  slip : ℚ

/-- State of the physical-settlement `WheelStrategy`: the `BaseStrategy`
account fields plus the explicit `stage` attribute. -/
structure WheelSt where
  cash : ℚ
  btc : ℚ
  positions : List Pos
  stage : Stage
deriving DecidableEq

/-- Embedding of the overridden `WheelStrategy._settle` (physical
settlement): an in-the-money short put takes delivery (`cash -= strike*size`,
`btc += size`, stage to CC) when cash covers the cost, else pays only the
intrinsic loss; an in-the-money short call delivers the underlying
(`btc -= size`, `cash += strike*size`, stage to CSP) when holdings cover the
size, else pays only the intrinsic loss; out-of-the-money positions expire
with no effect. -/
def wheel_settle (st : WheelSt) (p : Pos) (spot : ℚ) : WheelSt :=
  if p.otype = OptType.put ∧ spot < p.strike then
    let cost := p.strike * p.size
    if st.cash ≥ cost then
      { st with cash := st.cash - cost, btc := st.btc + p.size, stage := Stage.CC }
    else
      { st with cash := st.cash - (p.strike - spot) * p.size }
  else if p.otype = OptType.call ∧ spot > p.strike then
    let revenue := p.strike * p.size
    if st.btc ≥ p.size then
      { st with btc := st.btc - p.size, cash := st.cash + revenue, stage := Stage.CSP }
    else
      { st with cash := st.cash - (spot - p.strike) * p.size }
  else st

/-- The settlement phase of one `BaseStrategy.run` step for the Wheel: the
source loops the position list from the last index to the first, decrementing
each `days_left`, settling and popping every position that reaches `<= 0`.
Equivalently: decrement all, settle the due ones in reverse list order, keep
the survivors in their original order. -/
def wheel_step_settle (spot : ℚ) (st : WheelSt) : WheelSt :=
  let ps := st.positions.map fun p => { p with days_left := p.days_left - 1 }
  let due := ps.filter fun p => p.days_left ≤ 0
  let keep := ps.filter fun p => ¬ p.days_left ≤ 0
  due.reverse.foldl (fun s p => wheel_settle s p spot) { st with positions := keep }

/-- `BaseStrategy.sell_option` acting on the Wheel's state record. -/
def wheel_sell_option (st : WheelSt) (strike : ℚ) (days : ℤ) (size premium : ℚ)
    (ot : OptType) : WheelSt :=
  { st with cash := st.cash + premium * size * (98 / 100),
            positions := st.positions ++ [⟨ot, Side.short, strike, days, size⟩] }

/-- Embedding of the active `WheelStrategy.next_signal`
(`src/src/strategy.py`): with no open position, the CSP stage liquidates any
non-dust underlying and sells a fully-cash-collateralized OTM put
(`size = cash/strike`, slippage-haircut premium); the CC stage sells an OTM
call sized to the held underlying, falling back to CSP if holdings are dust. -/
def wheel_next_signal (P : MathPrims) (wp : WheelParams) (row : Row)
    (st : WheelSt) : WheelSt :=
  if st.positions.length > 0 then st
  else
    let price := row.price
    match st.stage with
    | Stage.CSP =>
        let st1 := if st.btc > 1 / 1000 then
          { st with cash := st.cash + st.btc * price, btc := 0 } else st
        let strike := price * wp.put_otm
        let skew := get_dynamic_skew row.sigma
        let vol := row.sigma + skew
        let prem := bsm_price P price strike (wp.days : ℚ) row.r vol OptType.put * (1 - wp.slip)
        if st1.cash > 0 then
          let size := st1.cash / strike
          if size > 1 / 1000 then wheel_sell_option st1 strike wp.days size prem OptType.put
          else st1
        else st1
    | Stage.CC =>
        if st.btc < 1 / 1000 then { st with stage := Stage.CSP }
        else
          let strike := price * wp.call_otm
          let prem := bsm_price P price strike (wp.days : ℚ) row.r row.sigma OptType.call * (1 - wp.slip)
          wheel_sell_option st strike wp.days st.btc prem OptType.call

/-- One full `BaseStrategy.run` iteration for the Wheel: settle due positions,
then decide.  (`_record` only appends to the equity log and mutates none of
the embedded fields, so it is omitted.) -/
def wheel_step (P : MathPrims) (wp : WheelParams) (row : Row) (st : WheelSt) : WheelSt :=
  wheel_next_signal P wp row (wheel_step_settle row.price st)

/-- Embedding of `BaseStrategy.run` specialised to the Wheel: sequential
iteration over the market-data rows. -/
def wheel_run (P : MathPrims) (wp : WheelParams) (rows : List Row) (st : WheelSt) : WheelSt :=
  rows.foldl (fun s row => wheel_step P wp row s) st

/-- Collateralization invariant of the Wheel: at most one open position; any
open position is short; an open put is fully cash-collateralized
(`strike*size <= cash`) and an open call fully covered (`size <= btc`). -/
def WheelInv (st : WheelSt) : Prop :=
  st.positions.length ≤ 1 ∧ ∀ p ∈ st.positions,
    p.side = Side.short ∧
    (p.otype = OptType.put → p.strike * p.size ≤ st.cash) ∧
    (p.otype = OptType.call → p.size ≤ st.btc)

/-- Regime labels, the `MarketRegime` enum of `src/src/regime.py` (`Extreme`
is declared there as a future extension and never produced). -/
inductive Regime
  | Low
  | Normal
  | High
  | Extreme
deriving DecidableEq

/-- The four rolling-quantile thresholds computed per row by
`RollingPercentileRegime.add_signals`. -/
structure Thresh where
  qhe : ℚ
  qhx : ℚ
  qle : ℚ
  qlx : ℚ
deriving DecidableEq

/-- The hysteresis transition of `add_signals`: from Normal, enter High above
`q_high_enter` or Low below `q_low_enter`; leave High only strictly below
`q_high_exit`; leave Low only strictly above `q_low_exit`.  (An `Extreme`
state would match no branch of the source's if/elif chain and stay put.) -/
def regimeStep (st : Regime) (val : ℚ) (t : Thresh) : Regime :=
  match st with
  | Regime.Normal =>
      if val > t.qhe then Regime.High
      else if val < t.qle then Regime.Low
      else Regime.Normal
  | Regime.High => if val < t.qhx then Regime.Normal else Regime.High
  | Regime.Low => if val > t.qlx then Regime.Normal else Regime.Low
  | Regime.Extreme => Regime.Extreme

/-- Trailing window of width `w` ending at index `i` (inclusive), the pandas
rolling window of row `i`. -/
def windowAt (w : ℕ) (vals : List ℚ) (i : ℕ) : List ℚ :=
  (vals.take (i + 1)).drop (i + 1 - w)

/-- Floor of a nonnegative rational as a natural number. -/
def ratFloorNat (q : ℚ) : ℕ := (q.num / (q.den : ℤ)).toNat

/-- The linear-interpolation quantile used by pandas `rolling(...).quantile`:
at position `h = q*(n-1)` in the sorted sample, interpolate between the two
neighbouring order statistics. -/
def quantileLinear (q : ℚ) (xs : List ℚ) : ℚ :=
  let s := xs.insertionSort (· ≤ ·)
  let n := s.length
  let h := q * ((n : ℚ) - 1)
  let lo := ratFloorNat h
  let g := h - (lo : ℚ)
  s.getD lo 0 + g * (s.getD (lo + 1) (s.getD lo 0) - s.getD lo 0)

/-- Per-row input to the regime loop: the volatility value paired with the
rolling thresholds, `none` when fewer than `min_periods` observations exist
(pandas emits NaN there, detected by the loop's `np.isnan(q_he[i])` test). -/
def mkEntries (w m : ℕ) (he hx le lx : ℚ) (vals : List ℚ) :
    List (ℚ × Option Thresh) :=
  (List.range vals.length).map fun i =>
    (vals.getD i 0,
      if i + 1 < m then none
      else some ⟨quantileLinear he (windowAt w vals i),
                 quantileLinear hx (windowAt w vals i),
                 quantileLinear le (windowAt w vals i),
                 quantileLinear lx (windowAt w vals i)⟩)

/-- The signal loop of `add_signals`: a NaN threshold row appends `Normal`
and leaves `current_state` untouched; otherwise the hysteresis transition
fires and the (new) state is appended. -/
def regimeAux : List (ℚ × Option Thresh) → Regime → List Regime
  | [], _ => []
  | (_, none) :: rest, st => Regime.Normal :: regimeAux rest st
  | (v, some t) :: rest, st =>
      let st1 := regimeStep st v t
      st1 :: regimeAux rest st1

/-- Embedding of `RollingPercentileRegime.add_signals` (`src/src/regime.py`):
compute the four rolling quantiles per row, then run the hysteresis state
machine starting from `Normal`, producing one label per input row. -/
def add_signals (w m : ℕ) (he hx le lx : ℚ) (vals : List ℚ) : List Regime :=
  regimeAux (mkEntries w m he hx le lx vals) Regime.Normal

/-- The state reached by the regime loop after consuming a list of entries
(NaN rows leave the state unchanged). -/
def regimeFoldState : List (ℚ × Option Thresh) → Regime → Regime
  | [], st => st
  | (_, none) :: rest, st => regimeFoldState rest st
  | (v, some t) :: rest, st => regimeFoldState rest (regimeStep st v t)

/-- One strategy as seen by `BacktestEngine.run_strategies`
(`src/src/backtest_engine.py`): an identity and a fallible run over the shared
read-only data feed, producing the daily `(date, portfolio_value)` series; an
unexpected exception is an `Except.error`. -/
structure StratRunner (δ : Type) where
  name : ℕ
  run : δ → Except ℕ (List (ℚ × ℚ))

/-- The equity-curve collection loop of `run_strategies`: each strategy runs
inside try/except; a success contributes its named equity curve, a failure is
logged and skipped. -/
def collect_curves {δ : Type} (data : δ) : List (StratRunner δ) → List (ℕ × List (ℚ × ℚ))
  | [] => []
  | s :: rest =>
      match s.run data with
      | Except.ok df => (s.name, df) :: collect_curves data rest
      | Except.error _ => collect_curves data rest

/-- Embedding of `BacktestEngine.run_strategies`: run every strategy,
consolidate the surviving equity curves (the columns of the master table, in
run order), returning `none` when no strategy succeeded (the source returns
`None` there).  File output is I/O and omitted. -/
def run_strategies {δ : Type} (data : δ) (strats : List (StratRunner δ)) :
    Option (List (ℕ × List (ℚ × ℚ))) :=
  let curves := collect_curves data strats
  if curves.isEmpty then none else some curves

/-! Concrete instantiations of the analytic primitives, used to evaluate the
embedding at concrete inputs in counterexamples and witnesses. -/

/-- All primitives constantly zero; enough for code paths that never reach
the analytic formula, and yields nonnegative premiums everywhere. -/
def zeroPrims : MathPrims :=
  ⟨fun _ => 0, fun _ => 0, fun _ => 0, fun _ => 0, fun _ => 0, 0⟩

/-- Primitives with `log 1 = 0` (the true value) and `exp` constantly `9/10`
(a value in `(0, 1)`, as the true `exp(-rT)` is for `rT > 0`), exhibiting the
missing `sigma <= 0` guard of `_bsm_price_formula`. -/
def expPrims : MathPrims :=
  ⟨fun _ => 0, fun _ => 0, fun _ => 9 / 10, fun _ => 0, fun _ => 0, 0⟩

/-- Primitives satisfying, at the points a delta round-trip witness needs,
the exact identities `log (exp x) = x`, `log (a/b) = log a - log b`,
`cdf (ppf p) = p` and `sqrt T > 0`. -/
def roundPrims : MathPrims := ⟨id, fun _ => 1, id, fun _ => 1 / 2, fun _ => 0, 0⟩

/-- Premiums produced through `zeroPrims` are nonnegative: every branch of
`bsm_price` returns a `max 0 _` or evaluates the formula to 0. -/
theorem zeroPrims_bsm_nonneg (S K T r sg : ℚ) (ot : OptType) :
    0 ≤ bsm_price zeroPrims S K T r sg ot := by
  unfold bsm_price
  split_ifs <;> cases ot <;> simp [intrinsic, zeroPrims]

/-- C1: corrected circuit breaker.  For a found empirical price `m`, the code
falls back to the theoretical price `b` iff the relative deviation computed
with the `+ 0.0001` epsilon denominator, `|m-b|/(b+0.0001)`, exceeds 50% and
the absolute deviation `|m-b|` exceeds $0.50 (the claim's denominator is `b`
itself, which differs on a thin boundary band).  In particular an empirical
price within 10% of a nonnegative theoretical price is returned unchanged,
and an empirical price 10x a positive theoretical price with absolute
deviation above $0.50 is replaced by the theoretical price. -/
theorem get_price_sanity_amended (P : MathPrims) (S K T r sigma : ℚ)
    (ot : OptType) (m b : ℚ) (hb : b = bsm_price_formula P S K T r sigma ot) :
    (get_price P S K T r sigma ot (some m) =
      if |m - b| / (b + 1 / 10000) > 1 / 2 ∧ |m - b| > 1 / 2 then b else m)
    ∧ (0 ≤ b → |m - b| ≤ b / 10 → get_price P S K T r sigma ot (some m) = m)
    ∧ (0 < b → m = 10 * b → 1 / 2 < |m - b| →
        get_price P S K T r sigma ot (some m) = b) := by
  subst hb
  set b := bsm_price_formula P S K T r sigma ot with hbdef
  refine ⟨rfl, ?_, ?_⟩
  · intro h0 h10
    have hden : (0 : ℚ) < b + 1 / 10000 := by linarith
    have hrel : |m - b| / (b + 1 / 10000) ≤ 1 / 2 := by
      rw [div_le_iff₀ hden]
      have : |m - b| ≤ b / 10 := h10
      linarith
    show (if |m - b| / (b + 1 / 10000) > 1 / 2 ∧ |m - b| > 1 / 2 then b else m) = m
    rw [if_neg]
    intro hcon
    exact absurd hcon.1 (not_lt.mpr hrel)
  · intro hbpos hm habs
    have hden : (0 : ℚ) < b + 1 / 10000 := by linarith
    have habs9 : |m - b| = 9 * b := by
      rw [hm]
      have : 10 * b - b = 9 * b := by ring
      rw [this, abs_of_pos (by linarith)]
    have hb18 : 1 / 18 < b := by
      rw [habs9] at habs; linarith
    have hrel : 1 / 2 < |m - b| / (b + 1 / 10000) := by
      rw [lt_div_iff₀ hden, habs9]
      linarith
    show (if |m - b| / (b + 1 / 10000) > 1 / 2 ∧ |m - b| > 1 / 2 then b else m) = b
    rw [if_pos ⟨hrel, habs⟩]

/-- Witness for C1's amended theorem: with theoretical price 2, an empirical
price 2.1 (within 10%) is returned unchanged. -/
theorem get_price_sanity_amended_witness :
    get_price zeroPrims 3 1 0 0 0 OptType.call (some (21 / 10)) = 21 / 10 :=
  (get_price_sanity_amended zeroPrims 3 1 0 0 0 OptType.call (21 / 10) 2
    (by norm_num [bsm_price_formula, intrinsic, max_def])).2.1 (by norm_num)
    (by rw [show (21 / 10 : ℚ) - 2 = 1 / 10 by norm_num,
          abs_of_nonneg (by norm_num : (0 : ℚ) ≤ 1 / 10)]
        norm_num)

/-- C1: counterexample to the claim as stated.  With theoretical price
`b = 2` and empirical price `m = 3.00004`, both of the claim's conditions
hold (`|m-b|/b = 0.50002 > 50%` and `|m-b| = 1.00004 > $0.50`), yet the code
returns the empirical price, because its relative deviation is computed as
`|m-b|/(b+0.0001) = 0.499995 <= 50%`. -/
theorem get_price_sanity_counterexample :
    get_price zeroPrims 3 1 0 0 0 OptType.call (some (75001 / 25000)) = 75001 / 25000
    ∧ 1 / 2 <
        |75001 / 25000 - bsm_price_formula zeroPrims 3 1 0 0 0 OptType.call|
          / bsm_price_formula zeroPrims 3 1 0 0 0 OptType.call
    ∧ 1 / 2 < |75001 / 25000 - bsm_price_formula zeroPrims 3 1 0 0 0 OptType.call|
    ∧ (75001 / 25000 : ℚ) ≠ bsm_price_formula zeroPrims 3 1 0 0 0 OptType.call := by
  have hb : bsm_price_formula zeroPrims 3 1 0 0 0 OptType.call = 2 := by
    norm_num [bsm_price_formula, intrinsic, max_def]
  have habs : |(75001 / 25000 : ℚ) - 2| = 25001 / 25000 := by
    rw [show (75001 / 25000 : ℚ) - 2 = 25001 / 25000 by norm_num,
      abs_of_nonneg (by norm_num : (0 : ℚ) ≤ 25001 / 25000)]
  refine ⟨?_, ?_, ?_, ?_⟩
  · simp only [get_price, hb]
    rw [if_neg]
    rw [habs]
    norm_num
  · rw [hb, habs]; norm_num
  · rw [hb, habs]; norm_num
  · rw [hb]; norm_num

/-- C4: the `run_backtest.py` / `src.strategy` pricing function `bsm_price`
returns the intrinsic value whenever `T_days <= 0` or `sigma <= 0`, and its
`sigma <= 0` case coincides with its `T = 0` case; but the hybrid engine's
`_bsm_price_formula` has no `sigma <= 0` guard.  At `S=100, K=100, T=1,
r=0.05, sigma=0` (an at-the-money call with a positive rate) numpy's
`num/0.0 = +inf` makes `norm.cdf(d1) = norm.cdf(d2) = 1` and the code
returns the discounted forward intrinsic `S - K*exp(-rT) = 100*(1 -
exp(-0.05)) > 0` instead of the intrinsic value `max(0, S-K) = 0` that the
claim and specification require (the only facts used about the true `log`
and `exp` are `log 1 = 0` and `exp(-0.05) < 1`). -/
theorem bsm_edge_cases :
    (∀ (P : MathPrims) (S K Td r sg : ℚ) (ot : OptType),
        Td ≤ 0 → bsm_price P S K Td r sg ot = intrinsic S K ot)
    ∧ (∀ (P : MathPrims) (S K Td r sg : ℚ) (ot : OptType),
        sg ≤ 0 → bsm_price P S K Td r sg ot = bsm_price P S K 0 r sg ot)
    ∧ (∀ P : MathPrims, P.log 1 = 0 → P.exp (-(1 / 20 * 1)) < 1 →
        bsm_price_formula P 100 100 1 (1 / 20) 0 OptType.call
          = 100 - 100 * P.exp (-(1 / 20 * 1))
        ∧ bsm_price_formula P 100 100 1 (1 / 20) 0 OptType.call
            ≠ intrinsic 100 100 OptType.call) := by
  refine ⟨?_, ?_, ?_⟩
  · intro P S K Td r sg ot h
    unfold bsm_price
    rw [if_pos h]
  · intro P S K Td r sg ot hsg
    unfold bsm_price
    split_ifs <;> simp_all
  · intro P hlog hexp
    have h1 : bsm_price_formula P 100 100 1 (1 / 20) 0 OptType.call
        = 100 - 100 * P.exp (-(1 / 20 * 1)) := by
      unfold bsm_price_formula
      rw [show (100 : ℚ) / 100 = 1 by norm_num, hlog]
      norm_num
    refine ⟨h1, ?_⟩
    intro hcontra
    rw [h1] at hcontra
    have hint : intrinsic 100 100 OptType.call = 0 := by
      norm_num [intrinsic, max_def]
    rw [hint] at hcontra
    nlinarith

/-- Witness for C4's theorem: the `T_days = 0` edge case of `bsm_price` and
the missing-guard divergence of `_bsm_price_formula`, both at concrete
inputs. -/
theorem bsm_edge_cases_witness :
    bsm_price zeroPrims 5 3 0 0 1 OptType.call = intrinsic 5 3 OptType.call
    ∧ bsm_price_formula expPrims 100 100 1 (1 / 20) 0 OptType.call
        ≠ intrinsic 100 100 OptType.call :=
  ⟨bsm_edge_cases.1 zeroPrims 5 3 0 0 1 OptType.call (le_refl 0),
   (bsm_edge_cases.2.2 expPrims rfl (by norm_num [expPrims])).2⟩

/-- C8: amended spread direction.  For nonnegative mid premium
`premium*size`, buying debits at least the mid and selling credits at most
the mid (the multipliers are the fixed `1.02` and `0.98`), and equality holds
exactly when the mid premium is zero — not "only when the spread fraction is
zero", since the code's spread fraction is the constant 2%. -/
theorem spread_direction_amended (st : Account) (strike : ℚ) (days : ℤ)
    (size premium : ℚ) (h : 0 ≤ premium * size) :
    premium * size ≤ st.cash - (buy_option st strike days size premium OptType.call).cash
    ∧ (sell_option st strike days size premium OptType.put).cash - st.cash ≤ premium * size
    ∧ (st.cash - (buy_option st strike days size premium OptType.call).cash = premium * size
        ↔ premium * size = 0)
    ∧ ((sell_option st strike days size premium OptType.put).cash - st.cash = premium * size
        ↔ premium * size = 0) := by
  simp only [buy_option, sell_option]
  refine ⟨by linarith, by linarith, ?_, ?_⟩
  · constructor
    · intro he; linarith
    · intro he; rw [he]; ring
  · constructor
    · intro he; linarith
    · intro he; rw [he]; ring

/-- Witness for C8's amended theorem at premium 1, size 1. -/
theorem spread_direction_amended_witness :
    (1 : ℚ) * 1 ≤ (⟨100, 0, []⟩ : Account).cash
      - (buy_option ⟨100, 0, []⟩ 90 30 1 1 OptType.call).cash :=
  (spread_direction_amended ⟨100, 0, []⟩ 90 30 1 1 (by norm_num)).1

/-- C8: counterexample to the claim as stated.  At zero premium the buy
execution cost and the sell proceeds both equal the mid premium exactly, yet
the code's spread multipliers are the non-trivial constants 1.02 and 0.98 —
so "equality only when the spread fraction is zero" fails. -/
theorem spread_direction_counterexample :
    (⟨100, 0, []⟩ : Account).cash - (buy_option ⟨100, 0, []⟩ 90 30 1 0 OptType.call).cash
      = 0 * 1
    ∧ (sell_option ⟨100, 0, []⟩ 90 30 1 0 OptType.put).cash - (⟨100, 0, []⟩ : Account).cash
      = 0 * 1
    ∧ (102 / 100 : ℚ) ≠ 1 ∧ (98 / 100 : ℚ) ≠ 1 := by
  refine ⟨?_, ?_, by norm_num, by norm_num⟩ <;> simp [buy_option, sell_option]

/-- C6: physical Wheel settlement.  Under the Wheel's collateralization
invariant (which `wheel_run` preserves, see the no-shortfall theorem), a CSP
put assigned in the money debits cash by `strike*size`, adds exactly `size`
underlying and moves the stage to CC; a CC call assigned in the money removes
exactly `size` underlying, credits cash by `strike*size` and moves the stage
back to CSP. -/
theorem wheel_settle_assignment (st : WheelSt) (p : Pos) (spot : ℚ)
    (hInv : WheelInv st) (hp : p ∈ st.positions) :
    (st.stage = Stage.CSP → p.otype = OptType.put → spot < p.strike →
      wheel_settle st p spot =
        { st with cash := st.cash - p.strike * p.size,
                  btc := st.btc + p.size, stage := Stage.CC })
    ∧ (st.stage = Stage.CC → p.otype = OptType.call → p.strike < spot →
      wheel_settle st p spot =
        { st with cash := st.cash + p.strike * p.size,
                  btc := st.btc - p.size, stage := Stage.CSP }) := by
  obtain ⟨-, hall⟩ := hInv
  obtain ⟨hshort, hputcol, hcallcol⟩ := hall p hp
  constructor
  · intro _ hot hlt
    unfold wheel_settle
    rw [if_pos ⟨hot, hlt⟩, if_pos (hputcol hot)]
  · intro _ hot hgt
    unfold wheel_settle
    rw [if_neg (by simp [hot]), if_pos ⟨hot, hgt⟩, if_pos (hcallcol hot)]

/-- Witness for C6: a fully collateralized short put of strike 90, size 1,
assigned at spot 80, yields delivery of 1 unit and stage CC. -/
theorem wheel_settle_assignment_witness :
    wheel_settle ⟨90, 0, [⟨OptType.put, Side.short, 90, 0, 1⟩], Stage.CSP⟩
        ⟨OptType.put, Side.short, 90, 0, 1⟩ 80
      = ⟨0, 1, [⟨OptType.put, Side.short, 90, 0, 1⟩], Stage.CC⟩ := by
  have h := (wheel_settle_assignment
    ⟨90, 0, [⟨OptType.put, Side.short, 90, 0, 1⟩], Stage.CSP⟩
    ⟨OptType.put, Side.short, 90, 0, 1⟩ 80
    (by refine ⟨by norm_num, ?_⟩
        intro p hp
        simp only [List.mem_singleton] at hp
        subst hp
        exact ⟨rfl, fun _ => by norm_num, fun hc => by cases hc⟩)
    (List.mem_singleton.mpr rfl)).1 rfl rfl (by norm_num)
  rw [h]
  norm_num

/-- C5: the analytic delta-to-strike inversion round-trips.  For `sigma > 0`,
`sqrt T > 0` and a target delta in the claim's open ranges (so the
probability clip to `[0.001, 0.999]` is a no-op), recomputing the
Black-Scholes delta at the returned strike gives back the target delta
exactly, given the defining identities of `log`, `exp`, `cdf` and `ppf` at
the points involved (stated as hypotheses since the embedding of the
analytic primitives is abstract). -/
theorem strike_for_delta_roundtrip (P : MathPrims) (S T r sigma delta : ℚ)
    (ot : OptType) (K : ℚ) (hK : K = bsm_find_strike P S T r sigma delta ot)
    (hsig : 0 < sigma) (hsq : 0 < P.sqrt T)
    (hrange : (ot = OptType.call → 1 / 20 < delta ∧ delta < 19 / 20)
      ∧ (ot = OptType.put → -(19 / 20) < delta ∧ delta < -(1 / 20)))
    (hlogexp : P.log (bsm_find_strike P S T r sigma delta ot)
      = strike_log P S T r sigma delta ot)
    (hlogdiv : P.log (S / K) = P.log S - P.log K)
    (hcdf : P.cdf (P.ppf (clipQ (chooseTargetProb delta ot) (1 / 1000) (999 / 1000)))
      = clipQ (chooseTargetProb delta ot) (1 / 1000) (999 / 1000)) :
    bsm_delta P S K T r sigma ot = delta := by
  have hclip : clipQ (chooseTargetProb delta ot) (1 / 1000) (999 / 1000)
      = chooseTargetProb delta ot := by
    have hlo : 1 / 1000 ≤ chooseTargetProb delta ot := by
      cases ot with
      | call => have := (hrange.1 rfl).1; simp only [chooseTargetProb]; linarith
      | put => have := (hrange.2 rfl).1; simp only [chooseTargetProb]; linarith
    have hhi : chooseTargetProb delta ot ≤ 999 / 1000 := by
      cases ot with
      | call => have := (hrange.1 rfl).2; simp only [chooseTargetProb]; linarith
      | put => have := (hrange.2 rfl).2; simp only [chooseTargetProb]; linarith
    unfold clipQ
    rw [max_eq_left hlo, min_eq_left hhi]
  have hvol : sigma * P.sqrt T ≠ 0 := ne_of_gt (mul_pos hsig hsq)
  have hd1 : (P.log (S / K) + (r + sigma ^ 2 / 2) * T) / (sigma * P.sqrt T)
      = P.ppf (chooseTargetProb delta ot) := by
    rw [hlogdiv, hK, hlogexp]
    unfold strike_log
    rw [hclip]
    field_simp
    ring
  unfold bsm_delta
  rw [hd1]
  rw [hclip] at hcdf
  cases ot with
  | call => dsimp only; rw [hcdf]; rfl
  | put =>
      dsimp only
      rw [hcdf]
      show 1 + delta - 1 = delta
      ring

/-- Witness for C5 with `roundPrims`: S = 4, T = 1, r = -5/2, sigma = 1,
target call delta 1/2; the inversion returns K = 2 and the recomputed delta
is 1/2. -/
theorem strike_for_delta_roundtrip_witness :
    bsm_delta roundPrims 4 (bsm_find_strike roundPrims 4 1 (-(5 / 2)) 1 (1 / 2) OptType.call)
        1 (-(5 / 2)) 1 OptType.call = 1 / 2 :=
  strike_for_delta_roundtrip roundPrims 4 1 (-(5 / 2)) 1 (1 / 2) OptType.call _ rfl
    (by norm_num) (by norm_num [roundPrims])
    (⟨fun _ => by norm_num, fun h => by cases h⟩)
    (by norm_num [roundPrims, bsm_find_strike, strike_log, clipQ, chooseTargetProb])
    (by norm_num [roundPrims, bsm_find_strike, strike_log, clipQ, chooseTargetProb])
    (by norm_num [roundPrims, clipQ, chooseTargetProb])

/-- Helper: the curve-collection loop distributes over list append. -/
theorem collect_curves_append {δ : Type} (data : δ) (xs ys : List (StratRunner δ)) :
    collect_curves data (xs ++ ys)
      = collect_curves data xs ++ collect_curves data ys := by
  induction xs with
  | nil => rfl
  | cons s rest ih =>
      cases h : s.run data <;> simp [collect_curves, h, ih]

/-- C9: fault isolation in the batch runner.  If one strategy's run raises
(returns an error), `run_strategies` produces exactly the consolidated output
it would produce with that strategy absent: the failure is swallowed, the
failed strategy contributes no column, and all other strategies' recorded
results are unchanged. -/
theorem failed_strategy_excluded {δ : Type} (data : δ)
    (pre post : List (StratRunner δ)) (s : StratRunner δ)
    (herr : ∃ e, s.run data = Except.error e) :
    run_strategies data (pre ++ s :: post) = run_strategies data (pre ++ post) := by
  obtain ⟨e, he⟩ := herr
  unfold run_strategies
  rw [collect_curves_append, collect_curves_append,
    show collect_curves data (s :: post) = collect_curves data post by
      simp [collect_curves, he]]

/-- Witness for C9: a failing strategy in a two-element batch yields the same
consolidated table as the one-element batch without it. -/
theorem failed_strategy_excluded_witness :
    run_strategies (0 : ℚ)
        [⟨1, fun _ => Except.ok [(0, 100)]⟩, ⟨2, fun _ => Except.error 7⟩]
      = run_strategies (0 : ℚ) [⟨1, fun _ => Except.ok [(0, 100)]⟩] :=
  failed_strategy_excluded 0 [⟨1, fun _ => Except.ok [(0, 100)]⟩] []
    ⟨2, fun _ => Except.error 7⟩ ⟨7, rfl⟩

/-- Rebalancing never changes the position list. -/
theorem rebalance_positions (st : Account) (price : ℚ) :
    (rebalance st price).positions = st.positions := by
  unfold rebalance
  dsimp only
  split_ifs <;> rfl

/-- Liquidation never changes the position list. -/
theorem liquidate_positions (st : Account) (price : ℚ) :
    (liquidate st price).positions = st.positions := by
  unfold liquidate
  split_ifs <;> rfl

/-- With a positive price, rebalancing keeps nonnegative holdings
nonnegative (the trim branch leaves strictly positive holdings). -/
theorem rebalance_btc_nonneg (st : Account) (price : ℚ) (h : 0 ≤ st.btc)
    (hp : 0 < price) : 0 ≤ (rebalance st price).btc := by
  unfold rebalance
  dsimp only
  split_ifs with h1 h2
  · have h3 : ((st.cash + st.btc * price) * (5 / 100) - st.cash) / price < st.btc := by
      rw [div_lt_iff₀ hp]
      linarith
    dsimp only
    linarith
  · exact h
  · exact h

/-- With a positive price, rebalancing keeps positive holdings positive. -/
theorem rebalance_btc_pos (st : Account) (price : ℚ) (h : 0 < st.btc)
    (hp : 0 < price) : 0 < (rebalance st price).btc := by
  unfold rebalance
  dsimp only
  split_ifs with h1 h2
  · have h3 : ((st.cash + st.btc * price) * (5 / 100) - st.cash) / price < st.btc := by
      rw [div_lt_iff₀ hp]
      linarith
    dsimp only
    linarith
  · exact h
  · exact h

/-- Liquidation zeroes nonnegative holdings. -/
theorem liquidate_btc (st : Account) (price : ℚ) (h : 0 ≤ st.btc) :
    (liquidate st price).btc = 0 := by
  unfold liquidate
  split_ifs with h1
  · rfl
  · exact le_antisymm (not_lt.mp h1) h

/-- The CSP leg never changes the holdings. -/
theorem csp_leg_btc (P : MathPrims) (days : ℤ) (row : Row) (st : Account) :
    (csp_leg P days row st).btc = st.btc := by
  unfold csp_leg sell_option
  dsimp only
  split_ifs <;> rfl

/-- Starting from an empty position list, the CSP leg opens at most one
position, and it is a short put. -/
theorem csp_leg_shape (P : MathPrims) (days : ℤ) (row : Row) (st : Account)
    (hpos : st.positions = []) :
    ∀ q ∈ (csp_leg P days row st).positions,
      q.otype = OptType.put ∧ q.side = Side.short := by
  unfold csp_leg sell_option
  dsimp only
  split_ifs <;> intro q hq <;> rw [hpos] at hq <;> simp at hq
  subst hq
  exact ⟨rfl, rfl⟩

/-- The collar leg never changes the holdings. -/
theorem collar_leg_btc (P : MathPrims) (days : ℤ) (row : Row) (st : Account) :
    (collar_leg P days row st).btc = st.btc := by
  unfold collar_leg buy_option sell_option
  dsimp only
  split_ifs <;> rfl

/-- Starting from an empty position list, an affordable collar leg opens
exactly a long put followed by a short call. -/
theorem collar_leg_positions (P : MathPrims) (days : ℤ) (row : Row) (st : Account)
    (hpos : st.positions = [])
    (haff : st.cash >
      (bsm_price P row.price (row.price * (95 / 100)) (days : ℚ) row.r
          (row.sigma + get_dynamic_skew row.sigma) OptType.put * (102 / 100)
        - bsm_price P row.price (row.price * (11 / 10)) (days : ℚ) row.r row.sigma
            OptType.call * (98 / 100)) * st.btc) :
    (collar_leg P days row st).positions.map (fun q => (q.otype, q.side))
      = [(OptType.put, Side.long), (OptType.call, Side.short)] := by
  unfold collar_leg buy_option sell_option
  dsimp only
  rw [if_pos haff, hpos]
  rfl

/-- In the panic branch (`gap > 0.15`), the run_backtest Chameleon reduces to
liquidation followed by the CSP leg. -/
theorem cham_panic_eq (P : MathPrims) (days : ℤ) (row : Row) (st : Account)
    (hpos : st.positions = []) (hgap : row.gap > 15 / 100) :
    chameleon_next_signal P days row st
      = csp_leg P days row (liquidate (rebalance st row.price) row.price) := by
  unfold chameleon_next_signal
  rw [hpos]
  dsimp only [List.length_nil]
  rw [if_neg (by norm_num), if_pos hgap]

/-- In the cheap-vol branch (`gap < 0`) with positive holdings, the
run_backtest Chameleon reduces to the collar leg on the rebalanced account. -/
theorem cham_collar_eq (P : MathPrims) (days : ℤ) (row : Row) (st : Account)
    (hpos : st.positions = []) (hgap : row.gap < 0)
    (hbtc1 : 0 < (rebalance st row.price).btc) :
    chameleon_next_signal P days row st = collar_leg P days row (rebalance st row.price) := by
  unfold chameleon_next_signal
  rw [hpos]
  dsimp only [List.length_nil]
  rw [if_neg (by norm_num), if_neg (by linarith), if_pos hgap]
  have hst2 : (if (rebalance st row.price).btc = 0 ∧ (rebalance st row.price).cash > 0
      then buy_spot (rebalance st row.price) row.price (95 / 100)
      else rebalance st row.price) = rebalance st row.price :=
    if_neg (by rintro ⟨h0, -⟩; exact absurd h0 (ne_of_gt hbtc1))
  rw [hst2, if_pos hbtc1]

/-- In the normal branch (`0 <= gap <= 0.15`) with positive holdings, the
run_backtest Chameleon reduces to selling one covered call on the rebalanced
account. -/
theorem cham_covered_eq (P : MathPrims) (days : ℤ) (row : Row) (st : Account)
    (hpos : st.positions = []) (hg0 : 0 ≤ row.gap) (hg15 : row.gap ≤ 15 / 100)
    (hbtc1 : 0 < (rebalance st row.price).btc) :
    chameleon_next_signal P days row st
      = sell_option (rebalance st row.price) (row.price * (11 / 10)) days
          (rebalance st row.price).btc
          (bsm_price P row.price (row.price * (11 / 10)) (days : ℚ) row.r row.sigma
            OptType.call) OptType.call := by
  unfold chameleon_next_signal
  rw [hpos]
  dsimp only [List.length_nil]
  rw [if_neg (by norm_num), if_neg (by linarith), if_neg (by linarith)]
  have hst2 : (if (rebalance st row.price).btc = 0 ∧ (rebalance st row.price).cash > 0
      then buy_spot (rebalance st row.price) row.price (95 / 100)
      else rebalance st row.price) = rebalance st row.price :=
    if_neg (by rintro ⟨h0, -⟩; exact absurd h0 (ne_of_gt hbtc1))
  rw [hst2, if_pos hbtc1]

/-- For `gap >= 0`, the packaged Chameleon reduces to liquidation followed by
the CSP leg. -/
theorem cham_pkg_csp_eq (P : MathPrims) (days : ℤ) (row : Row) (st : Account)
    (hpos : st.positions = []) (hgap : 0 ≤ row.gap) :
    chameleon_next_signal_pkg P days row st
      = csp_leg P days row (liquidate (rebalance st row.price) row.price) := by
  unfold chameleon_next_signal_pkg
  rw [hpos]
  dsimp only [List.length_nil]
  rw [if_neg (by norm_num), if_neg (by linarith)]

/-- For `gap < 0` with positive holdings, the packaged Chameleon reduces to
the collar leg on the rebalanced account. -/
theorem cham_pkg_collar_eq (P : MathPrims) (days : ℤ) (row : Row) (st : Account)
    (hpos : st.positions = []) (hgap : row.gap < 0)
    (hbtc1 : 0 < (rebalance st row.price).btc) :
    chameleon_next_signal_pkg P days row st
      = collar_leg P days row (rebalance st row.price) := by
  unfold chameleon_next_signal_pkg
  rw [hpos]
  dsimp only [List.length_nil]
  rw [if_neg (by norm_num), if_pos hgap]
  have hst2 : (if (rebalance st row.price).btc = 0 ∧ (rebalance st row.price).cash > 0
      then buy_spot (rebalance st row.price) row.price (95 / 100)
      else rebalance st row.price) = rebalance st row.price :=
    if_neg (by rintro ⟨h0, -⟩; exact absurd h0 (ne_of_gt hbtc1))
  rw [hst2, if_pos hbtc1]

/-- C7: amended mode selection.  The `run_backtest.py` Chameleon selects
among three gap-driven modes exactly as claimed: above the 0.15 panic
threshold it converts all holdings to cash and sells only short puts; below 0
it keeps the (rebalanced) underlying and opens a protective collar (long OTM
put plus short OTM call) when affordable; in between it keeps the underlying
and sells only a covered call.  The packaged Chameleon of
`src/src/strategy.py` instead has only two modes: `gap < 0` runs the same
collar, while every `gap >= 0` row — panic and normal alike — converts all
holdings to cash and sells only short puts; it has no covered-call mode. -/
theorem chameleon_modes_amended (P : MathPrims) (days : ℤ) (row : Row)
    (st : Account) (hpos : st.positions = []) (hprice : 0 < row.price) :
    (row.gap > 15 / 100 → 0 ≤ st.btc →
      (chameleon_next_signal P days row st).btc = 0
      ∧ ∀ q ∈ (chameleon_next_signal P days row st).positions,
          q.otype = OptType.put ∧ q.side = Side.short)
    ∧ (row.gap < 0 → 0 < st.btc →
        (rebalance st row.price).cash >
          (bsm_price P row.price (row.price * (95 / 100)) (days : ℚ) row.r
              (row.sigma + get_dynamic_skew row.sigma) OptType.put * (102 / 100)
            - bsm_price P row.price (row.price * (11 / 10)) (days : ℚ) row.r
                row.sigma OptType.call * (98 / 100)) * (rebalance st row.price).btc →
        (chameleon_next_signal P days row st).btc = (rebalance st row.price).btc
        ∧ 0 < (chameleon_next_signal P days row st).btc
        ∧ (chameleon_next_signal P days row st).positions.map (fun q => (q.otype, q.side))
            = [(OptType.put, Side.long), (OptType.call, Side.short)])
    ∧ (0 ≤ row.gap → row.gap ≤ 15 / 100 → 0 < st.btc →
        (chameleon_next_signal P days row st).btc = (rebalance st row.price).btc
        ∧ 0 < (chameleon_next_signal P days row st).btc
        ∧ (chameleon_next_signal P days row st).positions.map (fun q => (q.otype, q.side))
            = [(OptType.call, Side.short)])
    ∧ (0 ≤ row.gap → 0 ≤ st.btc →
        (chameleon_next_signal_pkg P days row st).btc = 0
        ∧ ∀ q ∈ (chameleon_next_signal_pkg P days row st).positions,
            q.otype = OptType.put ∧ q.side = Side.short)
    ∧ (row.gap < 0 → 0 < st.btc →
        (rebalance st row.price).cash >
          (bsm_price P row.price (row.price * (95 / 100)) (days : ℚ) row.r
              (row.sigma + get_dynamic_skew row.sigma) OptType.put * (102 / 100)
            - bsm_price P row.price (row.price * (11 / 10)) (days : ℚ) row.r
                row.sigma OptType.call * (98 / 100)) * (rebalance st row.price).btc →
        (chameleon_next_signal_pkg P days row st).btc = (rebalance st row.price).btc
        ∧ (chameleon_next_signal_pkg P days row st).positions.map (fun q => (q.otype, q.side))
            = [(OptType.put, Side.long), (OptType.call, Side.short)]) := by
  refine ⟨?_, ?_, ?_, ?_, ?_⟩
  · intro hgap hbtc
    rw [cham_panic_eq P days row st hpos hgap]
    constructor
    · rw [csp_leg_btc, liquidate_btc _ _ (rebalance_btc_nonneg st row.price hbtc hprice)]
    · apply csp_leg_shape
      rw [liquidate_positions, rebalance_positions, hpos]
  · intro hgap hbtc haff
    have hbtc1 := rebalance_btc_pos st row.price hbtc hprice
    rw [cham_collar_eq P days row st hpos hgap hbtc1]
    refine ⟨collar_leg_btc P days row _, ?_, ?_⟩
    · rw [collar_leg_btc]; exact hbtc1
    · exact collar_leg_positions P days row _ (by rw [rebalance_positions, hpos]) haff
  · intro hg0 hg15 hbtc
    have hbtc1 := rebalance_btc_pos st row.price hbtc hprice
    rw [cham_covered_eq P days row st hpos hg0 hg15 hbtc1]
    refine ⟨rfl, hbtc1, ?_⟩
    simp [sell_option, rebalance_positions, hpos]
  · intro hgap hbtc
    rw [cham_pkg_csp_eq P days row st hpos hgap]
    constructor
    · rw [csp_leg_btc, liquidate_btc _ _ (rebalance_btc_nonneg st row.price hbtc hprice)]
    · apply csp_leg_shape
      rw [liquidate_positions, rebalance_positions, hpos]
  · intro hgap hbtc haff
    have hbtc1 := rebalance_btc_pos st row.price hbtc hprice
    rw [cham_pkg_collar_eq P days row st hpos hgap hbtc1]
    exact ⟨collar_leg_btc P days row _,
      collar_leg_positions P days row _ (by rw [rebalance_positions, hpos]) haff⟩

/-- Witness for C7's amended theorem: a panic row (`gap = 0.2`) from an
all-cash account ends with zero holdings. -/
theorem chameleon_modes_amended_witness :
    (chameleon_next_signal zeroPrims 30 ⟨100, 0, 1 / 2, 1 / 5⟩ ⟨1000, 0, []⟩).btc = 0 :=
  ((chameleon_modes_amended zeroPrims 30 ⟨100, 0, 1 / 2, 1 / 5⟩ ⟨1000, 0, []⟩ rfl
    (by norm_num)).1 (by norm_num) (by norm_num)).1

/-- C7: counterexample to the claim as stated.  At vol gap `0.05`, inside the
claimed plain-covered-call band `0 <= gap <= threshold`, the packaged
Chameleon (`src/src/strategy.py`) liquidates its entire 1-unit holding to
cash and sells a short put — it neither keeps the underlying nor sells a
call. -/
theorem chameleon_modes_counterexample :
    (0 : ℚ) ≤ 1 / 20 ∧ (1 / 20 : ℚ) ≤ 15 / 100
    ∧ (chameleon_next_signal_pkg zeroPrims 30 ⟨100, 0, 1 / 2, 1 / 20⟩ ⟨10, 1, []⟩).btc = 0
    ∧ (chameleon_next_signal_pkg zeroPrims 30 ⟨100, 0, 1 / 2, 1 / 20⟩ ⟨10, 1, []⟩).positions.map
        (fun q => (q.otype, q.side)) = [(OptType.put, Side.short)] := by
  refine ⟨by norm_num, by norm_num, ?_, ?_⟩ <;>
    norm_num [chameleon_next_signal_pkg, rebalance, liquidate, csp_leg, sell_option,
      buy_spot, collar_leg, get_dynamic_skew, bsm_price, intrinsic, zeroPrims, max_def]

/-- The regime loop emits one label per entry. -/
theorem regimeAux_length (es : List (ℚ × Option Thresh)) (st : Regime) :
    (regimeAux es st).length = es.length := by
  induction es generalizing st with
  | nil => rfl
  | cons e rest ih =>
      obtain ⟨v, o⟩ := e
      cases o <;> simp [regimeAux, ih]

/-- The regime loop splits over append, threading the reached state. -/
theorem regimeAux_append (as bs : List (ℚ × Option Thresh)) (st : Regime) :
    regimeAux (as ++ bs) st
      = regimeAux as st ++ regimeAux bs (regimeFoldState as st) := by
  induction as generalizing st with
  | nil => rfl
  | cons e rest ih =>
      obtain ⟨v, o⟩ := e
      cases o <;> simp [regimeAux, regimeFoldState, ih]

/-- A below-minimum-samples entry always labels `Normal`. -/
theorem regimeAux_getD_none (es : List (ℚ × Option Thresh)) (st : Regime)
    (i : ℕ) (hi : i < es.length) (hnone : (es.getD i (0, none)).2 = none) :
    (regimeAux es st).getD i Regime.Normal = Regime.Normal := by
  induction es generalizing st i with
  | nil => simp at hi
  | cons e rest ih =>
      obtain ⟨v, o⟩ := e
      cases i with
      | zero =>
          rw [List.getD_cons_zero] at hnone
          cases o with
          | none => simp [regimeAux]
          | some t => simp at hnone
      | succ i' =>
          rw [List.getD_cons_succ] at hnone
          have hi' : i' < rest.length := by simpa using hi
          cases o with
          | none =>
              simpa [regimeAux, List.getD_cons_succ] using ih st i' hi' hnone
          | some t =>
              simpa [regimeAux, List.getD_cons_succ] using
                ih (regimeStep st v t) i' hi' hnone

/-- At an entry with valid thresholds, the emitted label is the machine state
after consuming the first `i+1` entries. -/
theorem regimeAux_getD_some (es : List (ℚ × Option Thresh)) (st : Regime)
    (i : ℕ) (hi : i < es.length) (hsome : (es.getD i (0, none)).2 ≠ none) :
    (regimeAux es st).getD i Regime.Normal
      = regimeFoldState (es.take (i + 1)) st := by
  induction es generalizing st i with
  | nil => simp at hi
  | cons e rest ih =>
      obtain ⟨v, o⟩ := e
      cases i with
      | zero =>
          rw [List.getD_cons_zero] at hsome
          cases o with
          | none => simp at hsome
          | some t => simp [regimeAux, regimeFoldState]
      | succ i' =>
          rw [List.getD_cons_succ] at hsome
          have hi' : i' < rest.length := by simpa using hi
          cases o with
          | none =>
              simpa [regimeAux, regimeFoldState, List.getD_cons_succ,
                List.take_succ_cons] using ih st i' hi' hsome
          | some t =>
              simpa [regimeAux, regimeFoldState, List.getD_cons_succ,
                List.take_succ_cons] using ih (regimeStep st v t) i' hi' hsome

/-- From the High state, as long as every entry up to `j` has valid
thresholds and a value not strictly below its high-exit threshold, every
emitted label up to `j` is High. -/
theorem persist_from_high (es : List (ℚ × Option Thresh)) (j : ℕ)
    (hj : j < es.length)
    (hall : ∀ k, k ≤ j → ∃ v t, es.getD k (0, none) = (v, some t) ∧ t.qhx ≤ v) :
    (regimeAux es Regime.High).getD j Regime.Normal = Regime.High := by
  induction es generalizing j with
  | nil => simp at hj
  | cons e rest ih =>
      obtain ⟨v, o⟩ := e
      obtain ⟨v0, t0, he0, hle0⟩ := hall 0 (Nat.zero_le j)
      rw [List.getD_cons_zero, Prod.mk.injEq] at he0
      obtain ⟨hv, ho⟩ := he0
      subst ho
      rw [← hv] at hle0
      have hstep : regimeStep Regime.High v t0 = Regime.High := by
        unfold regimeStep
        rw [if_neg (not_lt.mpr hle0)]
      cases j with
      | zero => simp [regimeAux, hstep]
      | succ j' =>
          have hj' : j' < rest.length := by simpa using hj
          have hall' : ∀ k, k ≤ j' →
              ∃ v1 t1, rest.getD k (0, none) = (v1, some t1) ∧ t1.qhx ≤ v1 := by
            intro k hk
            simpa [List.getD_cons_succ] using hall (k + 1) (by omega)
          simp only [regimeAux, hstep, List.getD_cons_succ]
          exact ih j' hj' hall'

/-- One entry per input row. -/
theorem mkEntries_length (w m : ℕ) (he hx le lx : ℚ) (vals : List ℚ) :
    (mkEntries w m he hx le lx vals).length = vals.length := by
  simp [mkEntries]

/-- The entry at a valid index, unfolded. -/
theorem mkEntries_getD (w m : ℕ) (he hx le lx : ℚ) (vals : List ℚ) (i : ℕ)
    (hi : i < vals.length) :
    (mkEntries w m he hx le lx vals).getD i (0, none)
      = (vals.getD i 0,
          if i + 1 < m then none
          else some ⟨quantileLinear he (windowAt w vals i),
                     quantileLinear hx (windowAt w vals i),
                     quantileLinear le (windowAt w vals i),
                     quantileLinear lx (windowAt w vals i)⟩) := by
  unfold mkEntries
  rw [List.getD_eq_getElem _ _ (by simpa using hi)]
  simp

/-- C2: regime hysteresis.  Once `add_signals` labels a row High, the label
stays High at every later row up to `j` as long as no intervening row's
volatility value falls strictly below that row's high-exit rolling quantile;
in particular dipping below the high-enter quantile while staying at or above
the high-exit quantile never toggles the label out of High. -/
theorem regime_high_hysteresis (w m : ℕ) (he hx le lx : ℚ) (vals : List ℚ)
    (i j : ℕ) (hij : i ≤ j) (hj : j < vals.length)
    (hHigh : (add_signals w m he hx le lx vals).getD i Regime.Normal = Regime.High)
    (hstay : ∀ k, i < k → k ≤ j →
      quantileLinear hx (windowAt w vals k) ≤ vals.getD k 0) :
    (add_signals w m he hx le lx vals).getD j Regime.Normal = Regime.High := by
  unfold add_signals at hHigh ⊢
  set ES := mkEntries w m he hx le lx vals with hES
  have hlen : ES.length = vals.length := mkEntries_length w m he hx le lx vals
  have hi : i < ES.length := by omega
  have hm : ¬ i + 1 < m := by
    intro hlt
    have hnone : (ES.getD i (0, none)).2 = none := by
      rw [hES, mkEntries_getD w m he hx le lx vals i (by omega)]
      simp [hlt]
    rw [regimeAux_getD_none ES Regime.Normal i hi hnone] at hHigh
    simp at hHigh
  have hsome : ∀ k, i ≤ k → k < vals.length →
      ES.getD k (0, none)
        = (vals.getD k 0, some ⟨quantileLinear he (windowAt w vals k),
            quantileLinear hx (windowAt w vals k),
            quantileLinear le (windowAt w vals k),
            quantileLinear lx (windowAt w vals k)⟩) := by
    intro k hk hk2
    rw [hES, mkEntries_getD w m he hx le lx vals k hk2, if_neg (by omega)]
  have hstate : regimeFoldState (ES.take (i + 1)) Regime.Normal = Regime.High := by
    rw [← regimeAux_getD_some ES Regime.Normal i hi
      (by rw [hsome i le_rfl (by omega)]; simp)]
    exact hHigh
  rcases Nat.eq_or_lt_of_le hij with heq | hlt
  · exact heq ▸ hHigh
  · have hsplit := (List.take_append_drop (i + 1) ES).symm
    have key : regimeAux ES Regime.Normal
        = regimeAux (ES.take (i + 1)) Regime.Normal
          ++ regimeAux (ES.drop (i + 1)) Regime.High := by
      conv_lhs => rw [hsplit]
      rw [regimeAux_append, hstate]
    have hlen1 : (regimeAux (ES.take (i + 1)) Regime.Normal).length = i + 1 := by
      rw [regimeAux_length, List.length_take]
      omega
    have hle : (regimeAux (ES.take (i + 1)) Regime.Normal).length ≤ j := by omega
    rw [key, List.getD_append_right _ _ _ _ hle, hlen1]
    apply persist_from_high
    · rw [List.length_drop]
      omega
    · intro k hk
      have hidx : i + 1 + k < ES.length := by omega
      have hdrop : (ES.drop (i + 1)).getD k (0, none) = ES.getD (i + 1 + k) (0, none) := by
        rw [List.getD_eq_getElem _ _ (by rw [List.length_drop]; omega),
          List.getD_eq_getElem _ _ hidx, List.getElem_drop]
      rw [hdrop, hsome (i + 1 + k) (by omega) (by omega)]
      exact ⟨vals.getD (i + 1 + k) 0, _, rfl,
        hstay (i + 1 + k) (by omega) (by omega)⟩

/-- Witness for C2 on the series `[1, 2, 3]` with all four percentile levels
0.5 and min_periods 1: the label is High at row 1 and, the value never
dropping below the high-exit quantile, still High at row 2. -/
theorem regime_high_hysteresis_witness :
    (add_signals 10 1 (1 / 2) (1 / 2) (1 / 2) (1 / 2) [1, 2, 3]).getD 2 Regime.Normal
      = Regime.High := by
  apply regime_high_hysteresis 10 1 (1 / 2) (1 / 2) (1 / 2) (1 / 2) [1, 2, 3] 1 2
    (by norm_num) (by norm_num)
  · norm_num [add_signals, mkEntries, regimeAux, regimeStep, windowAt, quantileLinear,
      ratFloorNat, List.range_succ, List.insertionSort, List.orderedInsert]
  · intro k hk1 hk2
    have hk : k = 2 := by omega
    subst hk
    norm_num [windowAt, quantileLinear, ratFloorNat, List.insertionSort, List.orderedInsert]

/-- C3: amended cold start.  The label is forced to Normal at each of the
first `min_periods - 1` rows (indices `i` with `i + 1 < min_periods`), where
the rolling quantiles are still NaN; the row at index `min_periods - 1`
already has valid quantiles and need not be Normal. -/
theorem regime_cold_start_amended (w m : ℕ) (he hx le lx : ℚ) (vals : List ℚ)
    (i : ℕ) (him : i + 1 < m) :
    (add_signals w m he hx le lx vals).getD i Regime.Normal = Regime.Normal := by
  unfold add_signals
  by_cases hi : i < vals.length
  · apply regimeAux_getD_none
    · rw [mkEntries_length]
      exact hi
    · rw [mkEntries_getD w m he hx le lx vals i hi]
      simp [him]
  · rw [List.getD_eq_default]
    rw [regimeAux_length, mkEntries_length]
    omega

/-- Witness for C3's amended theorem: with min_periods 3, row 1 of an
all-high series is still labelled Normal. -/
theorem regime_cold_start_amended_witness :
    (add_signals 5 3 (1 / 2) (1 / 2) (1 / 2) (1 / 2) [9, 9, 9]).getD 1 Regime.Normal
      = Regime.Normal :=
  regime_cold_start_amended 5 3 (1 / 2) (1 / 2) (1 / 2) (1 / 2) [9, 9, 9] 1 (by norm_num)

/-- C3: counterexample to the claim as stated.  With `min_periods = 2` and
the default percentile levels, the series `[1, 2]` gets the label High at row
index 1 — the second row, still among the first `min_periods` rows — because
the rolling quantile over `[1, 2]` is already valid there (`q_high_enter =
1.67 < 2`); only the first `min_periods - 1` rows are forced to Normal. -/
theorem regime_cold_start_counterexample :
    (add_signals 365 2 (67 / 100) (60 / 100) (33 / 100) (40 / 100) [1, 2]).getD 1
        Regime.Normal = Regime.High
    ∧ 1 + 1 ≤ 2 := by
  constructor
  · norm_num [add_signals, mkEntries, regimeAux, regimeStep, windowAt, quantileLinear,
      ratFloorNat, List.range_succ, List.insertionSort, List.orderedInsert]
  · norm_num

/-- Settlement never touches the position list (popping is done by the run
loop). -/
theorem wheel_settle_positions (st : WheelSt) (p : Pos) (spot : ℚ) :
    (wheel_settle st p spot).positions = st.positions := by
  unfold wheel_settle
  dsimp only
  split_ifs <;> rfl

/-- A state with no open position satisfies the Wheel invariant. -/
theorem wheelInv_empty (st : WheelSt) (h : st.positions = []) : WheelInv st := by
  unfold WheelInv
  rw [h]
  exact ⟨by simp, by simp⟩

/-- Selling a fully-cash-collateralized put (`size = cash/strike`) from a
flat state establishes the Wheel invariant. -/
theorem wheelInv_sell_put (c1 b1 : ℚ) (stg : Stage) (strike : ℚ) (days : ℤ)
    (prem : ℚ) (hstrike : 0 < strike) (hprem : 0 ≤ prem) (hc : 0 < c1) :
    WheelInv (wheel_sell_option ⟨c1, b1, [], stg⟩ strike days (c1 / strike)
      prem OptType.put) := by
  unfold WheelInv wheel_sell_option
  refine ⟨by simp, ?_⟩
  intro q hq
  simp only [List.nil_append, List.mem_singleton] at hq
  subst hq
  refine ⟨rfl, fun _ => ?_, fun hcc => by simp at hcc⟩
  show strike * (c1 / strike) ≤ c1 + prem * (c1 / strike) * (98 / 100)
  rw [mul_comm, div_mul_cancel₀ c1 (ne_of_gt hstrike)]
  have hsz : 0 ≤ c1 / strike := le_of_lt (div_pos hc hstrike)
  nlinarith

/-- Selling a covered call (`size = btc`) from a flat state establishes the
Wheel invariant. -/
theorem wheelInv_sell_call (c1 b1 : ℚ) (stg : Stage) (strike : ℚ) (days : ℤ)
    (prem : ℚ) :
    WheelInv (wheel_sell_option ⟨c1, b1, [], stg⟩ strike days b1
      prem OptType.call) := by
  unfold WheelInv wheel_sell_option
  refine ⟨by simp, ?_⟩
  intro q hq
  simp only [List.nil_append, List.mem_singleton] at hq
  subst hq
  exact ⟨rfl, fun hpp => by simp at hpp, fun _ => le_refl _⟩

/-- The settlement phase of a run step preserves the Wheel invariant. -/
theorem wheel_step_settle_inv (spot : ℚ) (st : WheelSt) (h : WheelInv st) :
    WheelInv (wheel_step_settle spot st) := by
  obtain ⟨hlen, hall⟩ := h
  unfold wheel_step_settle
  cases hps : st.positions with
  | nil =>
      simp only [List.map_nil, List.filter_nil, List.reverse_nil, List.foldl_nil]
      exact wheelInv_empty _ rfl
  | cons p tail =>
      cases htail : tail with
      | cons q rest =>
          rw [hps, htail] at hlen
          simp at hlen
      | nil =>
          subst htail
          by_cases hdue : p.days_left - 1 ≤ 0
          · simp only [List.map_cons, List.map_nil, List.filter, hdue, decide_True,
              decide_not, Bool.not_true, List.reverse_cons, List.reverse_nil,
              List.nil_append, List.foldl_cons, List.foldl_nil]
            apply wheelInv_empty
            rw [wheel_settle_positions]
          · simp only [List.map_cons, List.map_nil, List.filter, hdue, decide_False,
              decide_not, Bool.not_false, List.reverse_nil, List.foldl_nil]
            obtain ⟨hshort, hput, hcall⟩ := hall p (by rw [hps]; exact List.mem_singleton.mpr rfl)
            refine ⟨by simp, ?_⟩
            intro q hq
            simp at hq
            subst hq
            exact ⟨hshort, hput, hcall⟩

/-- The decision phase of a run step preserves the Wheel invariant, given
nonnegative premiums, a positive spot price, positive put moneyness and
slippage at most 1. -/
theorem wheel_next_signal_inv (P : MathPrims) (wp : WheelParams) (row : Row)
    (st : WheelSt) (hP : ∀ S K T r sg ot, 0 ≤ bsm_price P S K T r sg ot)
    (hprice : 0 < row.price) (hotm : 0 < wp.put_otm) (hslip : wp.slip ≤ 1)
    (h : WheelInv st) : WheelInv (wheel_next_signal P wp row st) := by
  unfold wheel_next_signal
  by_cases hpos : st.positions.length > 0
  · rw [if_pos hpos]
    exact h
  · rw [if_neg hpos]
    have hempty : st.positions = [] := List.length_eq_zero.mp (by omega)
    obtain ⟨c, b, ps, stg⟩ := st
    simp only at hempty
    subst hempty
    have hstrike : 0 < row.price * wp.put_otm := mul_pos hprice hotm
    have hprem : 0 ≤ bsm_price P row.price (row.price * wp.put_otm) (wp.days : ℚ) row.r
        (row.sigma + get_dynamic_skew row.sigma) OptType.put * (1 - wp.slip) :=
      mul_nonneg (hP _ _ _ _ _ _) (by linarith)
    cases stg with
    | CSP =>
        dsimp only
        split_ifs with h1 h2 h3 h4 h5
        · exact wheelInv_sell_put _ _ _ _ _ _ hstrike hprem h2
        · exact wheelInv_empty _ rfl
        · exact wheelInv_empty _ rfl
        · exact wheelInv_sell_put _ _ _ _ _ _ hstrike hprem h4
        · exact wheelInv_empty _ rfl
        · exact wheelInv_empty _ rfl
    | CC =>
        dsimp only
        split_ifs with h1
        · exact wheelInv_empty _ rfl
        · exact wheelInv_sell_call _ _ _ _ _ _

/-- A whole Wheel run preserves the invariant over rows with positive spot
prices. -/
theorem wheel_run_inv (P : MathPrims) (wp : WheelParams)
    (hP : ∀ S K T r sg ot, 0 ≤ bsm_price P S K T r sg ot)
    (hotm : 0 < wp.put_otm) (hslip : wp.slip ≤ 1) :
    ∀ (rows : List Row) (st : WheelSt), (∀ row ∈ rows, 0 < row.price) →
      WheelInv st → WheelInv (wheel_run P wp rows st) := by
  intro rows
  induction rows with
  | nil => intro st _ h; exact h
  | cons row rest ih =>
      intro st hrows h
      have hstep : wheel_run P wp (row :: rest) st
          = wheel_run P wp rest (wheel_step P wp row st) := by
        simp [wheel_run]
      rw [hstep]
      apply ih _ (fun rw hrw => hrows rw (List.mem_cons_of_mem _ hrw))
      exact wheel_next_signal_inv P wp row _ hP (hrows row (List.mem_cons_self _ _))
        hotm hslip (wheel_step_settle_inv row.price st h)

/-- C10: the Wheel's cash-shortfall settlement branch is unreachable.  Along
any run over positive-price rows from a collateralized start (e.g. the
all-cash initial state), with nonnegative premiums, positive put moneyness
and slippage at most 1, every intermediate state keeps an open put fully
cash-collateralized (`strike*size <= cash`, established at opening since
`size = cash/strike` and the premium credit is nonnegative); consequently
settling an in-the-money put always executes the full physical purchase
(`cash -= strike*size`, `btc += size`, stage CC), never the intrinsic-loss
fallback. -/
theorem wheel_no_shortfall (P : MathPrims) (wp : WheelParams) (rows : List Row)
    (st0 : WheelSt) (hP : ∀ S K T r sg ot, 0 ≤ bsm_price P S K T r sg ot)
    (hotm : 0 < wp.put_otm) (hslip : wp.slip ≤ 1)
    (hrows : ∀ row ∈ rows, 0 < row.price) (h0 : WheelInv st0) :
    (∀ n, WheelInv (wheel_run P wp (rows.take n) st0))
    ∧ ∀ (st : WheelSt) (p : Pos) (spot : ℚ), WheelInv st → p ∈ st.positions →
        p.otype = OptType.put → spot < p.strike →
        wheel_settle st p spot
          = { st with cash := st.cash - p.strike * p.size,
                      btc := st.btc + p.size, stage := Stage.CC } := by
  constructor
  · intro n
    exact wheel_run_inv P wp hP hotm hslip (rows.take n) st0
      (fun row hrow => hrows row (List.take_subset n rows hrow)) h0
  · intro st p spot hInv hp hot hlt
    obtain ⟨-, hall⟩ := hInv
    obtain ⟨-, hput, -⟩ := hall p hp
    unfold wheel_settle
    rw [if_pos ⟨hot, hlt⟩, if_pos (hput hot)]

/-- Witness for C10: a one-row run of the standard Wheel configuration from
the all-cash initial state stays within the invariant. -/
theorem wheel_no_shortfall_witness :
    WheelInv (wheel_run zeroPrims ⟨30, 9 / 10, 11 / 10, 2 / 100⟩
      (([⟨100, 0, 1 / 2, 0⟩] : List Row).take 1) ⟨100000, 0, [], Stage.CSP⟩) :=
  (wheel_no_shortfall zeroPrims ⟨30, 9 / 10, 11 / 10, 2 / 100⟩ [⟨100, 0, 1 / 2, 0⟩]
    ⟨100000, 0, [], Stage.CSP⟩ zeroPrims_bsm_nonneg (by norm_num) (by norm_num)
    (by
      intro row hrow
      rw [List.mem_singleton] at hrow
      subst hrow
      norm_num)
    (wheelInv_empty _ rfl)).1 1

end BTCStrat
